import Mathlib

/-!
Verification of the field-supervisor application (`mobile_supervisor.py`).

The remote spreadsheet is modelled as a list of rows, each row a list of
string cells; row 1 (index 0) is the header row.  Quantities are modelled
as rationals (the Python code works with `float` values obtained from
`float(row['Qty'] or 0)`; we model the numeric value exactly).

Each definition below embeds one Python function of the source file,
keeping its name where Lean allows it.
-/

namespace FieldApp

/-! ### Generic sheet model and python-dict helpers -/

/-- A worksheet: row 1 (index 0) is the header row, the rest are data rows. -/
abbrev Sheet := List (List String)

/-- `d.get(k, 0.0)` on a Python dict modelled as an association list. -/
def dget (d : List (String × ℚ)) (k : String) : ℚ :=
  match d with
  | [] => 0
  | (k2, v) :: rest => if k2 = k then v else dget rest k

/-- `d[k] = v` on a Python dict: replace in place, else append (insertion order). -/
def dset (d : List (String × ℚ)) (k : String) (v : ℚ) : List (String × ℚ) :=
  match d with
  | [] => [(k, v)]
  | (k2, v2) :: rest => if k2 = k then (k, v) :: rest else (k2, v2) :: dset rest k v

theorem dget_dset (d : List (String × ℚ)) (k v m) :
    dget (dset d k v) m = if k = m then v else dget d m := by
  induction d with
  | nil => simp [dset, dget]
  | cons p rest ih =>
    obtain ⟨k2, v2⟩ := p
    simp only [dset]
    by_cases h2 : k2 = k
    · subst h2
      by_cases h : k2 = m <;> simp [dget, h]
    · simp only [if_neg h2, dget]
      by_cases h : k2 = m
      · subst h
        have hkm : ¬ k = k2 := fun he => h2 he.symm
        simp [hkm]
      · simp [h, ih]

/-! ### Stock ledger (`calculate_stock`, lines 137–149)

An Inventory / WorkLogs record as far as the ledger reads it: the
`Material` cell and the numeric value `float(row['Qty'] or 0)`. -/

structure StockRow where
  Material : String
  Qty : ℚ
  deriving DecidableEq

/-- One iteration of the inward loop: `stock[mat] = stock.get(mat, 0.0) + qty`. -/
def stock_add (s : List (String × ℚ)) (r : StockRow) : List (String × ℚ) :=
  dset s r.Material.trim (dget s r.Material.trim + r.Qty)

/-- One iteration of the outward loop: `stock[mat] = stock.get(mat, 0.0) - qty`. -/
def stock_sub (s : List (String × ℚ)) (r : StockRow) : List (String × ℚ) :=
  dset s r.Material.trim (dget s r.Material.trim - r.Qty)

/-- `calculate_stock`: fold the Inventory rows adding, then the WorkLogs rows
subtracting, starting from the empty dict. -/
def calculate_stock (df_in df_out : List StockRow) : List (String × ℚ) :=
  df_out.foldl stock_sub (df_in.foldl stock_add [])

/-- Sum of the quantities of the rows whose trimmed material equals `m`. -/
def material_total (df : List StockRow) (m : String) : ℚ :=
  ((df.filter (fun r => r.Material.trim == m)).map StockRow.Qty).sum

theorem dget_stock_add (s r m) :
    dget (stock_add s r) m =
      dget s m + (if r.Material.trim = m then r.Qty else 0) := by
  unfold stock_add
  rw [dget_dset]
  by_cases h : r.Material.trim = m
  · rw [if_pos h, if_pos h, h]
  · rw [if_neg h, if_neg h, add_zero]

theorem dget_stock_sub (s r m) :
    dget (stock_sub s r) m =
      dget s m - (if r.Material.trim = m then r.Qty else 0) := by
  unfold stock_sub
  rw [dget_dset]
  by_cases h : r.Material.trim = m
  · rw [if_pos h, if_pos h, h]
  · rw [if_neg h, if_neg h, sub_zero]

theorem material_total_cons (r : StockRow) (df m) :
    material_total (r :: df) m =
      (if r.Material.trim = m then r.Qty else 0) + material_total df m := by
  unfold material_total
  by_cases h : r.Material.trim = m
  · simp [List.filter_cons, h]
  · simp [List.filter_cons, h]

theorem dget_foldl_stock_add (df : List StockRow) :
    ∀ (s : List (String × ℚ)) (m : String),
      dget (df.foldl stock_add s) m = dget s m + material_total df m := by
  induction df with
  | nil => intro s m; simp [material_total]
  | cons r rest ih =>
    intro s m
    rw [List.foldl_cons, ih, dget_stock_add, material_total_cons]
    ring

theorem dget_foldl_stock_sub (df : List StockRow) :
    ∀ (s : List (String × ℚ)) (m : String),
      dget (df.foldl stock_sub s) m = dget s m - material_total df m := by
  induction df with
  | nil => intro s m; simp [material_total]
  | cons r rest ih =>
    intro s m
    rw [List.foldl_cons, ih, dget_stock_sub, material_total_cons]
    ring

theorem material_total_append (df1 df2 : List StockRow) (m : String) :
    material_total (df1 ++ df2) m = material_total df1 m + material_total df2 m := by
  unfold material_total
  rw [List.filter_append, List.map_append, List.sum_append]

theorem material_total_self (r : StockRow) :
    material_total [r] (r.Material.trim) = r.Qty := by
  simp [material_total]

/-- C1: the ledger value of every material is inward sum minus outward sum,
and appending a single row moves exactly that material by exactly its qty. -/
theorem calculate_stock_spec (df_in df_out : List StockRow) (m : String) :
    dget (calculate_stock df_in df_out) m
        = material_total df_in m - material_total df_out m
    ∧ (∀ r : StockRow,
        dget (calculate_stock (df_in ++ [r]) df_out) r.Material.trim
          = dget (calculate_stock df_in df_out) r.Material.trim + r.Qty)
    ∧ (∀ r : StockRow,
        dget (calculate_stock df_in (df_out ++ [r])) r.Material.trim
          = dget (calculate_stock df_in df_out) r.Material.trim - r.Qty) := by
  have key : ∀ (a b : List StockRow) (x : String),
      dget (calculate_stock a b) x = material_total a x - material_total b x := by
    intro a b x
    unfold calculate_stock
    rw [dget_foldl_stock_sub, dget_foldl_stock_add, dget]
    ring
  refine ⟨key df_in df_out m, ?_, ?_⟩
  · intro r
    rw [key, key, material_total_append, material_total_self]
    ring
  · intro r
    rw [key, key, material_total_append, material_total_self]
    ring

/-! ### `get_data` (lines 48–54): any exception degrades to an empty table -/

/-- `get_data`: the remote fetch either yields the rows or raises; the bare
`except: return pd.DataFrame()` turns every error into the empty table. -/
def get_data (fetch : Except String (List (List String))) : List (List String) :=
  match fetch with
  | Except.ok rows => rows
  | Except.error _ => []

/-- C5: every failed fetch returns the empty table, indistinguishable from a
successful fetch of a genuinely empty table. -/
theorem get_data_swallows_errors (e : String) :
    get_data (Except.error e) = []
    ∧ get_data (Except.error e) = get_data (Except.ok []) := by
  exact ⟨rfl, rfl⟩

/-! ### `save_row` (lines 62–68) and the add-worker form (lines 680–686) -/

/-- `save_row`: read the header row, lay the payload dict out along the
headers (`row_dict.get(h, "")`), and append the resulting row. -/
def save_row (sheet : Sheet) (row_dict : List (String × String)) : Sheet :=
  sheet ++ [(sheet.headD []).map (fun h =>
    match row_dict.find? (fun p => p.1 == h) with
    | some p => p.2
    | none => "")]

/-- The add-worker form submit: `if new_w and new_w not in workers: save_row(...)`.
`workers` is the roster list from `get_worker_list`. -/
def add_worker (sheet : Sheet) (workers : List String) (new_w : String) : Sheet :=
  if new_w ≠ "" ∧ new_w ∉ workers then
    save_row sheet [("Name", new_w), ("Synced", "FALSE")]
  else sheet

/-- C6: an empty or already-rostered name writes nothing to the Workers table;
a non-empty, non-rostered name appends exactly one row. -/
theorem add_worker_spec (sheet : Sheet) (workers : List String) (new_w : String) :
    ((new_w = "" ∨ new_w ∈ workers) → add_worker sheet workers new_w = sheet)
    ∧ (new_w ≠ "" → new_w ∉ workers →
        add_worker sheet workers new_w
          = sheet ++ [(sheet.headD []).map (fun h =>
              match [("Name", new_w), ("Synced", "FALSE")].find? (fun p => p.1 == h) with
              | some p => p.2
              | none => "")]) := by
  constructor
  · intro h
    unfold add_worker
    rcases h with h | h
    · simp [h]
    · simp [h]
  · intro h1 h2
    unfold add_worker save_row
    simp [h1, h2]

/-- Witness for C6 at a concrete roster: the duplicate "General" is rejected,
the fresh name "Asha" is appended. -/
theorem add_worker_spec_witness :
    add_worker [["Name", "Synced"], ["General", "FALSE"]] ["General"] "General"
      = [["Name", "Synced"], ["General", "FALSE"]]
    ∧ add_worker [["Name", "Synced"], ["General", "FALSE"]] ["General"] "Asha"
      = [["Name", "Synced"], ["General", "FALSE"], ["Asha", "FALSE"]] := by
  constructor
  · exact (add_worker_spec [["Name", "Synced"], ["General", "FALSE"]]
      ["General"] "General").1 (Or.inr (by decide))
  · have h := (add_worker_spec [["Name", "Synced"], ["General", "FALSE"]]
      ["General"] "Asha").2 (by decide) (by decide)
    rw [h]
    rfl

/-! ### Low-stock alert of the Stock Overview tab (lines 651–658) -/

/-- The alert rule of the stock metric: `delta="Low" if qty<10 else None`. -/
def stock_delta (qty : ℚ) : Option String :=
  if qty < 10 then some "Low" else none

/-- Modelled from the spec: the fixed {material-substring: threshold} table.
In this revision the code applies one universal threshold of 10 to every
material, i.e. the table has a single entry whose empty substring matches
every material key. -/
def LOW_STOCK_THRESHOLDS : List (String × ℚ) := [("", 10)]

/-- Modelled from the spec: containment of `pat` as a contiguous sublist. -/
def sublist_contains (pat : List Char) : List Char → Bool
  | [] => pat.isEmpty
  | c :: rest => pat.isPrefixOf (c :: rest) || sublist_contains pat rest

/-- Modelled from the spec: substring containment of `pat` in `hay`. -/
def substr_contains (hay pat : String) : Bool :=
  sublist_contains pat.data hay.data

theorem sublist_contains_nil (l : List Char) : sublist_contains [] l = true := by
  cases l with
  | nil => rfl
  | cons c rest => rfl

/-- C7: the alert fires on a ledger entry iff its quantity is strictly below
the threshold of a matching substring entry of the fixed table. -/
theorem low_stock_alert_spec (item : String) (qty : ℚ) :
    stock_delta qty = some "Low"
      ↔ ∃ p ∈ LOW_STOCK_THRESHOLDS, substr_contains item p.1 = true ∧ qty < p.2 := by
  unfold stock_delta LOW_STOCK_THRESHOLDS
  have hsub : substr_contains item "" = true := sublist_contains_nil item.data
  by_cases h : qty < 10
  · simp [h, hsub]
  · simp [h]

/-! ### Installation-log submission (lines 325–346) -/

/-- One new WorkLogs row as the submit handler lays it out:
`[uuid] + meta_data + [material, qty] + gps_data + ["FALSE"]`. -/
structure WorkRow where
  rid : String
  meta : List String
  material : String
  qty : ℚ
  gps : List String
  synced : String
  deriving DecidableEq

/-- The work-log submit handler: build the batch of new WorkLogs rows for one
installation. `rid1 rid2 rid3` stand for the generated `uuid4` values,
`meta` for `meta_data`, `gps` for `gps_data`. -/
def build_batch_rows (rid1 rid2 rid3 : String) (meta gps : List String)
    (w_meter_type : String) (qty_cable qty_lugs : ℚ) : List WorkRow :=
  [⟨rid1, meta, w_meter_type ++ " Box", 1, gps, "FALSE"⟩]
    ++ (if qty_cable > 0 then [⟨rid2, meta, "Cable", qty_cable, gps, "FALSE"⟩] else [])
    ++ (if qty_lugs > 0 then [⟨rid3, meta, "Lugs", qty_lugs, gps, "FALSE"⟩] else [])

theorem append_Box_ne_Cable (s : String) : s ++ " Box" ≠ "Cable" := by
  intro h
  have hd : s.data ++ [' ', 'B', 'o', 'x'] = ['C', 'a', 'b', 'l', 'e'] := by
    have h2 := congrArg String.data h
    simpa [String.data_append] using h2
  have hlen : s.data.length = 1 := by
    have h3 := congrArg List.length hd
    have h4 : s.data.length + 4 = 5 := by simpa using h3
    omega
  obtain ⟨c, hc⟩ := List.length_eq_one.mp hlen
  rw [hc] at hd
  simp at hd

theorem append_Box_ne_Lugs (s : String) : s ++ " Box" ≠ "Lugs" := by
  intro h
  have hd : s.data ++ [' ', 'B', 'o', 'x'] = ['L', 'u', 'g', 's'] := by
    have h2 := congrArg String.data h
    simpa [String.data_append] using h2
  have hlen : s.data.length = 0 := by
    have h3 := congrArg List.length hd
    have h4 : s.data.length + 4 = 4 := by simpa using h3
    omega
  rw [List.length_eq_zero.mp hlen] at hd
  simp at hd

/-- C2: the submit handler always emits the box row with quantity 1, emits the
cable / lugs rows exactly when their quantities are positive, never records a
zero quantity, and hence emits `1 + [cable>0] + [lugs>0]` rows. -/
theorem build_batch_rows_spec (rid1 rid2 rid3 : String) (meta gps : List String)
    (t : String) (qty_cable qty_lugs : ℚ)
    (hc : 0 ≤ qty_cable) (hl : 0 ≤ qty_lugs) :
    (build_batch_rows rid1 rid2 rid3 meta gps t qty_cable qty_lugs).length
        = 1 + (if 0 < qty_cable then 1 else 0) + (if 0 < qty_lugs then 1 else 0)
    ∧ (⟨rid1, meta, t ++ " Box", 1, gps, "FALSE"⟩ : WorkRow)
        ∈ build_batch_rows rid1 rid2 rid3 meta gps t qty_cable qty_lugs
    ∧ ((⟨rid2, meta, "Cable", qty_cable, gps, "FALSE"⟩ : WorkRow)
        ∈ build_batch_rows rid1 rid2 rid3 meta gps t qty_cable qty_lugs
        ↔ 0 < qty_cable)
    ∧ ((⟨rid3, meta, "Lugs", qty_lugs, gps, "FALSE"⟩ : WorkRow)
        ∈ build_batch_rows rid1 rid2 rid3 meta gps t qty_cable qty_lugs
        ↔ 0 < qty_lugs)
    ∧ (∀ r ∈ build_batch_rows rid1 rid2 rid3 meta gps t qty_cable qty_lugs,
        0 < r.qty) := by
  have h2c : (⟨rid2, meta, "Cable", qty_cable, gps, "FALSE"⟩ : WorkRow)
      ≠ ⟨rid1, meta, t ++ " Box", 1, gps, "FALSE"⟩ :=
    fun h => append_Box_ne_Cable t (congrArg WorkRow.material h).symm
  have h3l : (⟨rid3, meta, "Lugs", qty_lugs, gps, "FALSE"⟩ : WorkRow)
      ≠ ⟨rid1, meta, t ++ " Box", 1, gps, "FALSE"⟩ :=
    fun h => append_Box_ne_Lugs t (congrArg WorkRow.material h).symm
  have hcl : (⟨rid2, meta, "Cable", qty_cable, gps, "FALSE"⟩ : WorkRow)
      ≠ ⟨rid3, meta, "Lugs", qty_lugs, gps, "FALSE"⟩ := by
    intro h
    have hm := congrArg WorkRow.material h
    simp at hm
  have h3c : (⟨rid3, meta, "Lugs", qty_lugs, gps, "FALSE"⟩ : WorkRow)
      ≠ ⟨rid2, meta, "Cable", qty_cable, gps, "FALSE"⟩ := fun h => hcl h.symm
  by_cases h1 : 0 < qty_cable <;> by_cases h2 : 0 < qty_lugs <;>
    simp [build_batch_rows, h1, h2, h2c, h3l, hcl, h3c]

/-- Witness for C2: the spec's concrete cases ("1 Phase", cable 10, lugs 0
gives two rows; cable 0, lugs 0 gives one row) at concrete ids. -/
theorem build_batch_rows_spec_witness :
    (build_batch_rows "a" "b" "c" [] [] "1 Phase" 10 0).length = 2
    ∧ (build_batch_rows "a" "b" "c" [] [] "1 Phase" 0 0).length = 1 := by
  constructor
  · have h := (build_batch_rows_spec "a" "b" "c" [] [] "1 Phase" 10 0
      (by norm_num) (le_refl 0)).1
    rw [h]
    norm_num
  · have h := (build_batch_rows_spec "a" "b" "c" [] [] "1 Phase" 0 0
      (le_refl 0) (le_refl 0)).1
    rw [h]
    norm_num

/-! ### `bulk_delete_rows` (lines 70–86) -/

/-- Does a row hold a cell whose value is one of the searched ids?
(`ws.findall(str(rid))` matches cells by exact value anywhere in the sheet.) -/
def row_matches (id_list : List String) (row : List String) : Bool :=
  row.any (fun c => id_list.contains c)

/-- Ascending list of the distinct row positions holding a matching cell
(the `set(c.row for c in cell_list)` of the source, 0-based here). -/
def matching_positions_from (id_list : List String) (sheet : Sheet) (start : Nat) :
    List Nat :=
  match sheet with
  | [] => []
  | row :: rest =>
    (if row_matches id_list row then [start] else [])
      ++ matching_positions_from id_list rest (start + 1)

/-- `rows_to_delete = sorted(list(set(...)), reverse=True)`. -/
def rows_to_delete (sheet : Sheet) (id_list : List String) : List Nat :=
  (matching_positions_from id_list sheet 0).reverse

/-- `bulk_delete_rows`: `if not id_list: return`; otherwise resolve the ids to
row positions and delete them in descending order, one `delete_rows` each. -/
def bulk_delete_rows (sheet : Sheet) (id_list : List String) : Sheet :=
  if id_list.isEmpty then sheet
  else (rows_to_delete sheet id_list).foldl (fun s r => s.eraseIdx r) sheet

theorem matching_positions_from_succ (id_list : List String) (sheet : Sheet) :
    ∀ s : Nat, matching_positions_from id_list sheet (s + 1)
      = (matching_positions_from id_list sheet s).map (fun i => i + 1) := by
  induction sheet with
  | nil => intro s; rfl
  | cons row rest ih =>
    intro s
    simp only [matching_positions_from, ih (s + 1), List.map_append]
    by_cases h : row_matches id_list row <;> simp [h]

theorem matching_positions_from_lb (id_list : List String) (sheet : Sheet) :
    ∀ s : Nat, ∀ x ∈ matching_positions_from id_list sheet s, s ≤ x := by
  induction sheet with
  | nil => intro s x hx; simp [matching_positions_from] at hx
  | cons row rest ih =>
    intro s x hx
    simp only [matching_positions_from, List.mem_append] at hx
    rcases hx with hx | hx
    · by_cases h : row_matches id_list row
      · simp [h] at hx; omega
      · simp [h] at hx
    · have := ih (s + 1) x hx
      omega

theorem matching_positions_from_sorted (id_list : List String) (sheet : Sheet) :
    ∀ s : Nat, (matching_positions_from id_list sheet s).Pairwise (· < ·) := by
  induction sheet with
  | nil => intro s; simp [matching_positions_from]
  | cons row rest ih =>
    intro s
    simp only [matching_positions_from]
    rw [List.pairwise_append]
    refine ⟨?_, ih (s + 1), ?_⟩
    · by_cases h : row_matches id_list row <;> simp [h]
    · intro a ha b hb
      have hb2 := matching_positions_from_lb id_list rest (s + 1) b hb
      by_cases h : row_matches id_list row
      · simp [h] at ha; omega
      · simp [h] at ha

theorem foldl_eraseIdx_map_succ (Q : List Nat) :
    ∀ (a : List String) (l : Sheet),
      (Q.map (fun i => i + 1)).foldl (fun s r => s.eraseIdx r) (a :: l)
        = a :: Q.foldl (fun s r => s.eraseIdx r) l := by
  induction Q with
  | nil => intro a l; rfl
  | cons q Q ih =>
    intro a l
    simp only [List.map_cons, List.foldl_cons]
    exact ih a (l.eraseIdx q)

theorem bulk_delete_core (id_list : List String) (sheet : Sheet) :
    (rows_to_delete sheet id_list).foldl (fun s r => s.eraseIdx r) sheet
      = sheet.filter (fun row => !(row_matches id_list row)) := by
  induction sheet with
  | nil => rfl
  | cons row rest ih =>
    unfold rows_to_delete
    simp only [matching_positions_from, matching_positions_from_succ id_list rest 0,
      List.reverse_append]
    rw [← List.map_reverse, List.foldl_append,
      foldl_eraseIdx_map_succ ((matching_positions_from id_list rest 0).reverse) row rest]
    rw [show (matching_positions_from id_list rest 0).reverse
          = rows_to_delete rest id_list from rfl, ih]
    by_cases h : row_matches id_list row
    · simp [h, List.filter_cons]
    · simp [h, List.filter_cons]

/-- C8: the delete positions are strictly descending, and deleting them one by
one from the highest down equals atomically removing every row holding a
matching cell and no other row. -/
theorem bulk_delete_rows_spec (sheet : Sheet) (id_list : List String) :
    bulk_delete_rows sheet id_list
        = sheet.filter (fun row => !(row_matches id_list row))
    ∧ (rows_to_delete sheet id_list).Pairwise (· > ·) := by
  constructor
  · unfold bulk_delete_rows
    by_cases h : id_list.isEmpty
    · have hids : id_list = [] := List.isEmpty_iff.mp h
      subst hids
      have hall : ∀ row ∈ sheet, (!(row_matches ([] : List String) row)) = true := by
        intro row hrow
        simp [row_matches]
      rw [if_pos (by rfl)]
      exact (List.filter_eq_self.mpr hall).symm
    · rw [if_neg h]
      exact bulk_delete_core id_list sheet
  · unfold rows_to_delete
    rw [List.pairwise_reverse]
    exact matching_positions_from_sorted id_list sheet 0

/-! ### Installation Logs view: grouping and grouped delete (lines 505–548) -/

/-- A WorkLogs record with the fields the Installation Logs view reads.  The
cell layout matches the batch rows appended by the work-log form. -/
structure WLRow where
  id : String
  date : String
  mainId : String
  dtrBox : String
  ssNo : String
  capacity : String
  site : String
  worker : String
  material : String
  qty : String
  lat : String
  lon : String
  synced : String
  deriving DecidableEq

/-- The physical cell row of a WorkLogs record. -/
def WLRow.toCells (r : WLRow) : List String :=
  [r.id, r.date, r.mainId, r.dtrBox, r.ssNo, r.capacity, r.site, r.worker,
   r.material, r.qty, r.lat, r.lon, r.synced]

/-- The grouping key of the view:
`group_cols = ['DateStr', id_col, 'Worker', ss_col, box_col]`. -/
def wl_key (r : WLRow) : String × String × String × String × String :=
  (r.date, r.mainId, r.worker, r.ssNo, r.dtrBox)

/-- The retained identifier list of one displayed group
(`'ID': lambda x: list(x)` aggregated over the group's rows). -/
def group_id_list (rows : List WLRow)
    (k : String × String × String × String × String) : List String :=
  (rows.filter (fun r => decide (wl_key r = k))).map WLRow.id

/-- `sel_wl_ids`: the id lists of all selected groups, flattened. -/
def selected_ids (rows : List WLRow)
    (ks : List (String × String × String × String × String)) : List String :=
  ks.flatMap (group_id_list rows)

/-- C3: under unique row ids (an id value occurs in a row only as that row's
own ID cell, and not in the header), deleting the selected groups removes
exactly the physical rows whose ids are in the selected groups' retained id
lists, and no other row. -/
theorem grouped_delete_spec (header : List String) (wlrows visible : List WLRow)
    (ks : List (String × String × String × String × String))
    (hhead : ∀ c ∈ header, c ∉ selected_ids visible ks)
    (hcells : ∀ r ∈ wlrows, ∀ c ∈ r.toCells, c ∈ selected_ids visible ks → c = r.id) :
    bulk_delete_rows (header :: wlrows.map WLRow.toCells) (selected_ids visible ks)
      = header
        :: (wlrows.filter
            (fun r => !((selected_ids visible ks).contains r.id))).map WLRow.toCells := by
  have hfilter := (bulk_delete_rows_spec (header :: wlrows.map WLRow.toCells)
    (selected_ids visible ks)).1
  rw [hfilter, List.filter_cons]
  have hh : (!(row_matches (selected_ids visible ks) header)) = true := by
    simp only [row_matches, Bool.not_eq_true', List.any_eq_false]
    intro c hc
    simpa using hhead c hc
  rw [if_pos hh, List.filter_map]
  have hcong : ∀ r ∈ wlrows,
      ((fun row => !(row_matches (selected_ids visible ks) row)) ∘ WLRow.toCells) r
        = (!((selected_ids visible ks).contains r.id)) := by
    intro r hr
    simp only [Function.comp_apply, row_matches]
    by_cases hid : r.id ∈ selected_ids visible ks
    · have hany : (WLRow.toCells r).any
          (fun c => (selected_ids visible ks).contains c) = true := by
        rw [List.any_eq_true]
        refine ⟨r.id, ?_, ?_⟩
        · simp [WLRow.toCells]
        · simpa using hid
      rw [hany]
      have hcon : (selected_ids visible ks).contains r.id = true := by simpa using hid
      rw [hcon]
    · have hany : (WLRow.toCells r).any
          (fun c => (selected_ids visible ks).contains c) = false := by
        rw [List.any_eq_false]
        intro c hc
        have hnot : c ∉ selected_ids visible ks := by
          intro hmem
          exact hid ((hcells r hr c hc hmem) ▸ hmem)
        simpa using hnot
      rw [hany]
      have hcon : (selected_ids visible ks).contains r.id = false := by simpa using hid
      rw [hcon]
  rw [List.filter_congr hcong]

/-- Witness for C3: a three-row WorkLogs table where the first two rows form
one displayed group; deleting that group removes exactly those two rows. -/
theorem grouped_delete_spec_witness :
    bulk_delete_rows
      (["ID", "Date", "SC No/ DTR Code", "DTR_Box_No", "Transformer_SS_No",
        "Capacity", "Site", "Worker", "Material", "Qty", "Latitude", "Longitude",
        "Synced"]
        :: ([⟨"id1", "2025-01-01", "SC1", "", "", "", "S", "W", "1 Phase Box", "1",
              "", "", "FALSE"⟩,
            ⟨"id2", "2025-01-01", "SC1", "", "", "", "S", "W", "Cable", "10",
              "", "", "FALSE"⟩,
            ⟨"id3", "2025-01-02", "SC2", "", "", "", "S", "W", "Lugs", "2",
              "", "", "FALSE"⟩] : List WLRow).map WLRow.toCells)
      (selected_ids
        [⟨"id1", "2025-01-01", "SC1", "", "", "", "S", "W", "1 Phase Box", "1",
           "", "", "FALSE"⟩,
         ⟨"id2", "2025-01-01", "SC1", "", "", "", "S", "W", "Cable", "10",
           "", "", "FALSE"⟩,
         ⟨"id3", "2025-01-02", "SC2", "", "", "", "S", "W", "Lugs", "2",
           "", "", "FALSE"⟩]
        [("2025-01-01", "SC1", "W", "", "")])
      = [["ID", "Date", "SC No/ DTR Code", "DTR_Box_No", "Transformer_SS_No",
          "Capacity", "Site", "Worker", "Material", "Qty", "Latitude", "Longitude",
          "Synced"],
         ["id3", "2025-01-02", "SC2", "", "", "", "S", "W", "Lugs", "2",
          "", "", "FALSE"]] := by
  have h := grouped_delete_spec
    ["ID", "Date", "SC No/ DTR Code", "DTR_Box_No", "Transformer_SS_No",
     "Capacity", "Site", "Worker", "Material", "Qty", "Latitude", "Longitude",
     "Synced"]
    [⟨"id1", "2025-01-01", "SC1", "", "", "", "S", "W", "1 Phase Box", "1",
       "", "", "FALSE"⟩,
     ⟨"id2", "2025-01-01", "SC1", "", "", "", "S", "W", "Cable", "10",
       "", "", "FALSE"⟩,
     ⟨"id3", "2025-01-02", "SC2", "", "", "", "S", "W", "Lugs", "2",
       "", "", "FALSE"⟩]
    [⟨"id1", "2025-01-01", "SC1", "", "", "", "S", "W", "1 Phase Box", "1",
       "", "", "FALSE"⟩,
     ⟨"id2", "2025-01-01", "SC1", "", "", "", "S", "W", "Cable", "10",
       "", "", "FALSE"⟩,
     ⟨"id3", "2025-01-02", "SC2", "", "", "", "S", "W", "Lugs", "2",
       "", "", "FALSE"⟩]
    [("2025-01-01", "SC1", "W", "", "")]
    (by decide) (by decide)
  rw [h]
  rfl

/-! ### Survey form submit (lines 232–257) -/

/-- `switch_val = "LC" if s_lc else "AB Switch" if s_ab else "None"`. -/
def switch_val (s_lc s_ab : Bool) : String :=
  if s_lc then "LC" else if s_ab then "AB Switch" else "None"

/-- The survey payload dict (lines 240–250). -/
def survey_payload (rid date name code lat lon lineman : String) (s_lc s_ab : Bool) :
    List (String × String) :=
  [("ID", rid), ("Date", date), ("DTR Name", name), ("DTR Code", code),
   ("Latitude", lat), ("Longitude", lon), ("LC/AB Switch", switch_val s_lc s_ab),
   ("Lineman Name", lineman), ("Synced", "FALSE")]

/-- The survey form submit handler: reject both switches at once, reject a
missing DTR SS No or DTR Code, otherwise `save_row` the payload. -/
def survey_submit (sheet : Sheet) (rid date name code lat lon lineman : String)
    (s_lc s_ab : Bool) : Sheet :=
  if s_lc && s_ab then sheet
  else if name = "" || code = "" then sheet
  else save_row sheet (survey_payload rid date name code lat lon lineman s_lc s_ab)

/-- C9: a survey row is appended iff validation passes (not both switches, and
both DTR SS No and DTR Code non-empty); a rejected submission leaves the store
unchanged; on success the LC/AB Switch cell records one of the three values. -/
theorem survey_submit_spec (sheet : Sheet)
    (rid date name code lat lon lineman : String) (s_lc s_ab : Bool) :
    ((s_lc && s_ab) = true ∨ name = "" ∨ code = "" →
      survey_submit sheet rid date name code lat lon lineman s_lc s_ab = sheet)
    ∧ ((s_lc && s_ab) = false → name ≠ "" → code ≠ "" →
      survey_submit sheet rid date name code lat lon lineman s_lc s_ab
        = save_row sheet (survey_payload rid date name code lat lon lineman s_lc s_ab)
      ∧ switch_val s_lc s_ab ∈ ["LC", "AB Switch", "None"]
      ∧ ∀ j : Nat, j < (sheet.headD []).length →
          (sheet.headD []).getD j "" = "LC/AB Switch" →
          (((survey_submit sheet rid date name code lat lon lineman s_lc s_ab).getLastD []).getD j ""
            = switch_val s_lc s_ab)) := by
  constructor
  · intro h
    unfold survey_submit
    rcases h with h | h | h
    · rw [if_pos h]
    · by_cases hb : s_lc && s_ab
      · rw [if_pos hb]
      · rw [if_neg hb, if_pos]
        simp [h]
    · by_cases hb : s_lc && s_ab
      · rw [if_pos hb]
      · rw [if_neg hb, if_pos]
        simp [h]
  · intro hb hn hc
    have hsub : survey_submit sheet rid date name code lat lon lineman s_lc s_ab
        = save_row sheet (survey_payload rid date name code lat lon lineman s_lc s_ab) := by
      unfold survey_submit
      rw [if_neg (by simp [hb]), if_neg (by simp [hn, hc])]
    refine ⟨hsub, ?_, ?_⟩
    · unfold switch_val
      by_cases h1 : s_lc
      · simp [h1]
      · by_cases h2 : s_ab <;> simp [h1, h2]
    · intro j hj hhdr
      rw [hsub]
      unfold save_row
      rw [List.getLastD_concat]
      have hj2 : j < ((sheet.headD []).map (fun h =>
          match (survey_payload rid date name code lat lon lineman s_lc s_ab).find?
              (fun p => p.1 == h) with
          | some p => p.2
          | none => "")).length := by
        simpa using hj
      rw [List.getD_eq_getElem _ "" hj2]
      have hkey := hhdr
      rw [List.getD_eq_getElem _ "" hj] at hkey
      simp only [List.getElem_map, hkey]
      simp [survey_payload]

/-- Witness for C9: both switches at once is rejected; a valid submission with
the AB Switch checked appends a row whose LC/AB Switch cell reads "AB Switch". -/
theorem survey_submit_spec_witness :
    survey_submit [["ID", "Date", "LC/AB Switch"]] "r1" "2025-01-01" "SS-1" "DTR-1"
        "" "" "L" true true
      = [["ID", "Date", "LC/AB Switch"]]
    ∧ ((survey_submit [["ID", "Date", "LC/AB Switch"]] "r1" "2025-01-01" "SS-1" "DTR-1"
        "" "" "L" false true).getLastD []).getD 2 "" = "AB Switch" := by
  constructor
  · exact (survey_submit_spec [["ID", "Date", "LC/AB Switch"]] "r1" "2025-01-01"
      "SS-1" "DTR-1" "" "" "L" true true).1 (Or.inl rfl)
  · have h := ((survey_submit_spec [["ID", "Date", "LC/AB Switch"]] "r1" "2025-01-01"
      "SS-1" "DTR-1" "" "" "L" false true).2 rfl (by decide) (by decide)).2.2
      2 (by decide) (by decide)
    simpa using h

/-! ### `update_worker_registry` (lines 112–120) -/

/-- `update_worker_registry`: read the header row, default a missing `Synced`
column to "FALSE" (pandas appends the new column last), clear the worksheet
and write the header plus exactly the edited rows. -/
def update_worker_registry (sheet : Sheet) (edited_cols : List String)
    (edited_rows : List (List String)) : Sheet :=
  let headers := sheet.headD []
  let rows := if edited_cols.contains "Synced" then edited_rows
              else edited_rows.map (fun r => r ++ ["FALSE"])
  headers :: rows

/-- C10: saving the roster editor replaces the whole Workers table: the result
is the original header plus exactly the (Synced-padded) edited rows, it does
not depend on the previous data rows, and a previous row absent from the
edited data is gone. -/
theorem update_worker_registry_spec (header : List String) (olds : List (List String))
    (edited_cols : List String) (edited_rows : List (List String)) :
    update_worker_registry (header :: olds) edited_cols edited_rows
        = header :: (if edited_cols.contains "Synced" then edited_rows
                     else edited_rows.map (fun r => r ++ ["FALSE"]))
    ∧ (∀ olds2 : List (List String),
        update_worker_registry (header :: olds) edited_cols edited_rows
          = update_worker_registry (header :: olds2) edited_cols edited_rows)
    ∧ (∀ r ∈ olds,
        r ∉ (if edited_cols.contains "Synced" then edited_rows
             else edited_rows.map (fun x => x ++ ["FALSE"])) →
        r ∉ (update_worker_registry (header :: olds) edited_cols edited_rows).tail) := by
  refine ⟨rfl, fun _ => rfl, ?_⟩
  intro r _ hnot
  simpa [update_worker_registry] using hnot

/-- Witness for C10: a two-row Workers table saved with a one-row edit keeps
only the edited row; the dropped worker "Bob" is gone. -/
theorem update_worker_registry_spec_witness :
    update_worker_registry [["Name", "Synced"], ["Asha", "FALSE"], ["Bob", "FALSE"]]
        ["Name"] [["Asha"]]
      = [["Name", "Synced"], ["Asha", "FALSE"]]
    ∧ ["Bob", "FALSE"] ∉
        (update_worker_registry [["Name", "Synced"], ["Asha", "FALSE"], ["Bob", "FALSE"]]
          ["Name"] [["Asha"]]).tail := by
  constructor
  · have h := (update_worker_registry_spec ["Name", "Synced"]
      [["Asha", "FALSE"], ["Bob", "FALSE"]] ["Name"] [["Asha"]]).1
    rw [h]
    rfl
  · exact (update_worker_registry_spec ["Name", "Synced"]
      [["Asha", "FALSE"], ["Bob", "FALSE"]] ["Name"] [["Asha"]]).2.2
      ["Bob", "FALSE"] (by decide) (by decide)

/-! ### `update_row_data` (lines 88–110) -/

/-- `headers.index(name)`, and the first cell of a row equal to a searched
value: position of the first occurrence, if any. -/
def first_index (l : List String) (name : String) : Option Nat :=
  match l with
  | [] => none
  | h :: rest =>
    if h = name then some 0 else (first_index rest name).map (fun i => i + 1)

/-- gspread `ws.find(query)`: the first cell whose value equals the query,
scanning rows top to bottom, as a 0-based (row, column) pair. -/
def find_cell (sheet : Sheet) (q : String) : Option (Nat × Nat) :=
  match sheet with
  | [] => none
  | row :: rest =>
    match first_index row q with
    | some c => some (0, c)
    | none => (find_cell rest q).map (fun rc => (rc.1 + 1, rc.2))

/-- Replace position `i` of a list through `f`; out of range is a no-op. -/
def set_nth {α : Type} (l : List α) (i : Nat) (f : α → α) : List α :=
  match l, i with
  | [], _ => []
  | a :: rest, 0 => f a :: rest
  | a :: rest, Nat.succ i2 => a :: set_nth rest i2 f

/-- The `updates` batch of `update_row_data`: one cell write per entry of
`updated_data` whose column name occurs in the headers
(`headers.index(col_name)` = first occurrence), kept in dict order. -/
def build_updates (headers : List String) (updated : List (String × String)) :
    List (Nat × String) :=
  updated.filterMap (fun kv => (first_index headers kv.1).map (fun ci => (ci, kv.2)))

/-- `ws.batch_update(updates)`: apply the single-cell writes, all on row `r`. -/
def apply_updates (sheet : Sheet) (r : Nat) (us : List (Nat × String)) : Sheet :=
  us.foldl (fun s u => set_nth s r (fun row => set_nth row u.1 (fun _ => u.2))) sheet

/-- `update_row_data`: locate the row holding the id, build the named-column
cell writes, apply them in one batch; `False` when the id is not found or no
named column exists. -/
def update_row_data (sheet : Sheet) (row_id : String)
    (updated : List (String × String)) : Sheet × Bool :=
  match find_cell sheet row_id with
  | none => (sheet, false)
  | some (r, _) =>
    let us := build_updates (sheet.headD []) updated
    if us.isEmpty then (sheet, false)
    else (apply_updates sheet r us, true)

theorem first_index_found (name : String) :
    ∀ (l : List String) (i : Nat),
      first_index l name = some i → i < l.length ∧ l.getD i "" = name := by
  intro l
  induction l with
  | nil => intro i h; simp [first_index] at h
  | cons a rest ih =>
    intro i h
    by_cases ha : a = name
    · simp only [first_index, if_pos ha, Option.some.injEq] at h
      subst h
      exact ⟨by simp, by simpa using ha⟩
    · simp only [first_index, if_neg ha, Option.map_eq_some'] at h
      obtain ⟨i2, h2, hi⟩ := h
      obtain ⟨hl, hv⟩ := ih i2 h2
      subst hi
      exact ⟨by simpa using hl, by simpa using hv⟩

theorem first_index_inj (l : List String) (n1 n2 : String) (i : Nat)
    (h1 : first_index l n1 = some i) (h2 : first_index l n2 = some i) : n1 = n2 := by
  have hv1 := (first_index_found n1 l i h1).2
  have hv2 := (first_index_found n2 l i h2).2
  exact hv1.symm.trans hv2

theorem find_cell_lt (q : String) :
    ∀ (sheet : Sheet) (r c : Nat),
      find_cell sheet q = some (r, c) → r < sheet.length := by
  intro sheet
  induction sheet with
  | nil => intro r c h; simp [find_cell] at h
  | cons row rest ih =>
    intro r c h
    unfold find_cell at h
    cases hf : first_index row q with
    | some c2 =>
      rw [hf] at h
      simp only [Option.some.injEq, Prod.mk.injEq] at h
      rw [← h.1]
      simp
    | none =>
      rw [hf] at h
      simp only [Option.map_eq_some'] at h
      obtain ⟨rc, hrc, heq⟩ := h
      have := ih rc.1 rc.2 (by simpa using hrc)
      have hr : rc.1 + 1 = r := congrArg Prod.fst heq
      simp only [List.length_cons]
      omega

theorem set_nth_length {α : Type} (f : α → α) :
    ∀ (l : List α) (i : Nat), (set_nth l i f).length = l.length := by
  intro l
  induction l with
  | nil => intro i; rfl
  | cons a rest ih =>
    intro i
    cases i with
    | zero => rfl
    | succ i2 => simp [set_nth, ih i2]

theorem set_nth_getD {α : Type} (d : α) (f : α → α) :
    ∀ (l : List α) (i j : Nat),
      (set_nth l i f).getD j d
        = if i = j ∧ j < l.length then f (l.getD j d) else l.getD j d := by
  intro l
  induction l with
  | nil => intro i j; simp [set_nth]
  | cons a rest ih =>
    intro i j
    cases i with
    | zero =>
      cases j with
      | zero => simp [set_nth]
      | succ j2 => simp [set_nth]
    | succ i2 =>
      cases j with
      | zero => simp [set_nth]
      | succ j2 =>
        simp only [set_nth, List.getD_cons_succ, ih i2 j2, List.length_cons]
        by_cases hc : i2 = j2 ∧ j2 < rest.length
        · rw [if_pos hc, if_pos ⟨by omega, by omega⟩]
        · rw [if_neg hc, if_neg (by omega)]

theorem set_nth_row_len (sheet : Sheet) (r : Nat) (g : List String → List String)
    (hg : ∀ row, (g row).length = row.length) (k : Nat) :
    ((set_nth sheet r g).getD k []).length = (sheet.getD k []).length := by
  rw [set_nth_getD]
  by_cases h : r = k ∧ k < sheet.length
  · rw [if_pos h, hg]
  · rw [if_neg h]

theorem apply_updates_cons (sheet : Sheet) (r : Nat) (u : Nat × String)
    (rest : List (Nat × String)) :
    apply_updates sheet r (u :: rest)
      = apply_updates (set_nth sheet r (fun row => set_nth row u.1 (fun _ => u.2)))
          r rest := rfl

theorem apply_updates_length (r : Nat) :
    ∀ (us : List (Nat × String)) (sheet : Sheet),
      (apply_updates sheet r us).length = sheet.length := by
  intro us
  induction us with
  | nil => intro sheet; rfl
  | cons u rest ih =>
    intro sheet
    rw [apply_updates_cons, ih, set_nth_length]

theorem apply_updates_row_ne (r : Nat) :
    ∀ (us : List (Nat × String)) (sheet : Sheet) (i : Nat), i ≠ r →
      (apply_updates sheet r us).getD i [] = sheet.getD i [] := by
  intro us
  induction us with
  | nil => intro sheet i _; rfl
  | cons u rest ih =>
    intro sheet i hi
    rw [apply_updates_cons, ih _ i hi, set_nth_getD]
    rw [if_neg (by intro hc; exact hi hc.1.symm)]

theorem apply_updates_cell_none (r : Nat) :
    ∀ (us : List (Nat × String)) (sheet : Sheet) (j : Nat),
      (∀ u ∈ us, u.1 ≠ j) →
      ((apply_updates sheet r us).getD r []).getD j ""
        = (sheet.getD r []).getD j "" := by
  intro us
  induction us with
  | nil => intro sheet j _; rfl
  | cons u rest ih =>
    intro sheet j hne
    rw [apply_updates_cons, ih _ j (fun u2 hu2 => hne u2 (List.mem_cons_of_mem u hu2))]
    rw [set_nth_getD]
    by_cases h : r = r ∧ r < sheet.length
    · rw [if_pos h, set_nth_getD]
      rw [if_neg (by intro hc; exact hne u (List.mem_cons_self u rest) hc.1)]
    · rw [if_neg h]

theorem apply_updates_cell_hit (r : Nat) :
    ∀ (us : List (Nat × String)) (sheet : Sheet) (j : Nat) (v : String),
      (us.map Prod.fst).Nodup → (j, v) ∈ us → r < sheet.length →
      j < (sheet.getD r []).length →
      ((apply_updates sheet r us).getD r []).getD j "" = v := by
  intro us
  induction us with
  | nil => intro sheet j v _ hmem; simp at hmem
  | cons u rest ih =>
    intro sheet j v hnd hmem hr hj
    have hnd2 := List.nodup_cons.mp hnd
    rw [apply_updates_cons]
    rcases List.mem_cons.mp hmem with heq | hmem2
    · have hu1 : u.1 = j := by rw [← heq]
      have hu2 : u.2 = v := by rw [← heq]
      have hrest : ∀ u2 ∈ rest, u2.1 ≠ j := by
        intro u2 hu2m hu2j
        exact hnd2.1 (hu1 ▸ hu2j ▸ List.mem_map_of_mem Prod.fst hu2m)
      rw [apply_updates_cell_none r rest _ j hrest]
      rw [set_nth_getD, if_pos ⟨rfl, hr⟩, set_nth_getD, if_pos ⟨hu1, hj⟩, hu2]
    · have hne : u.1 ≠ j := by
        intro h
        exact hnd2.1 (h ▸ (List.mem_map_of_mem Prod.fst hmem2 : (j, v).1 ∈ _))
      refine ih _ j v hnd2.2 hmem2 ?_ ?_
      · rw [set_nth_length]; exact hr
      · rw [set_nth_row_len sheet r _ (fun row => set_nth_length _ row u.1)]
        exact hj

theorem build_updates_fst_nodup (headers : List String)
    (updated : List (String × String)) (hnd : (updated.map Prod.fst).Nodup) :
    ((build_updates headers updated).map Prod.fst).Nodup := by
  have h1 : (build_updates headers updated).map Prod.fst
      = updated.filterMap (fun kv => first_index headers kv.1) := by
    unfold build_updates
    rw [List.map_filterMap]
    congr 1
    funext kv
    cases hfi : first_index headers kv.1 <;> simp [hfi]
  have h2 : updated.filterMap (fun kv => first_index headers kv.1)
      = (updated.map Prod.fst).filterMap (first_index headers) := by
    rw [List.filterMap_map]
    rfl
  rw [h1, h2]
  refine List.Nodup.filterMap ?_ hnd
  intro a a2 b hb1 hb2
  exact first_index_inj headers a a2 b hb1 hb2

/-- C4: with the id located at row `r` and distinct update keys, the patch
touches only the named columns present in the header row of that row: every
other row is unchanged, every unnamed cell of row `r` is unchanged, and every
named cell of row `r` now reads its new value (which is what a re-fetch after
the blanket cache invalidation returns). -/
theorem update_row_data_spec (sheet : Sheet) (row_id : String)
    (updated : List (String × String)) (r c : Nat)
    (hfind : find_cell sheet row_id = some (r, c))
    (hnd : (updated.map Prod.fst).Nodup)
    (hlen : (sheet.getD r []).length = (sheet.headD []).length) :
    (∀ i : Nat, i ≠ r →
      (update_row_data sheet row_id updated).1.getD i [] = sheet.getD i [])
    ∧ (∀ j : Nat, (∀ kv ∈ updated, first_index (sheet.headD []) kv.1 ≠ some j) →
        ((update_row_data sheet row_id updated).1.getD r []).getD j ""
          = (sheet.getD r []).getD j "")
    ∧ (∀ kv ∈ updated, ∀ j : Nat, first_index (sheet.headD []) kv.1 = some j →
        ((update_row_data sheet row_id updated).1.getD r []).getD j "" = kv.2) := by
  have hstep : update_row_data sheet row_id updated
      = if (build_updates (sheet.headD []) updated).isEmpty then (sheet, false)
        else (apply_updates sheet r (build_updates (sheet.headD []) updated), true) := by
    unfold update_row_data
    rw [hfind]
  have hS : (update_row_data sheet row_id updated).1
      = if (build_updates (sheet.headD []) updated).isEmpty then sheet
        else apply_updates sheet r (build_updates (sheet.headD []) updated) := by
    rw [hstep]
    by_cases h : (build_updates (sheet.headD []) updated).isEmpty
    · rw [if_pos h, if_pos h]
    · rw [if_neg h, if_neg h]
  by_cases hemp : (build_updates (sheet.headD []) updated).isEmpty
  · rw [hS, if_pos hemp] at *
    refine ⟨fun i _ => rfl, fun j _ => rfl, ?_⟩
    intro kv hkv j hfi
    have hmem : ((j, kv.2) : Nat × String) ∈ build_updates (sheet.headD []) updated :=
      List.mem_filterMap.mpr ⟨kv, hkv, by rw [hfi]; rfl⟩
    rw [List.isEmpty_iff.mp hemp] at hmem
    simp at hmem
  · rw [hS, if_neg hemp]
    have hr : r < sheet.length := find_cell_lt row_id sheet r c hfind
    have hndus := build_updates_fst_nodup (sheet.headD []) updated hnd
    refine ⟨?_, ?_, ?_⟩
    · intro i hi
      exact apply_updates_row_ne r _ sheet i hi
    · intro j hnone
      apply apply_updates_cell_none
      intro u hu huj
      obtain ⟨kv, hkv, hfk⟩ := List.mem_filterMap.mp hu
      rw [Option.map_eq_some'] at hfk
      obtain ⟨ci, hci, hciu⟩ := hfk
      have : ci = j := by rw [← huj, ← hciu]
      exact hnone kv hkv (this ▸ hci)
    · intro kv hkv j hfi
      have hmem : ((j, kv.2) : Nat × String) ∈ build_updates (sheet.headD []) updated :=
        List.mem_filterMap.mpr ⟨kv, hkv, by rw [hfi]; rfl⟩
      have hj : j < (sheet.getD r []).length := by
        rw [hlen]
        exact (first_index_found kv.1 (sheet.headD []) j hfi).1
      exact apply_updates_cell_hit r _ sheet j kv.2 hndus hmem hr hj

/-- Witness for C4: editing the Qty of row id "a2" patches only that cell;
the other row and the Name cell of the edited row keep their values. -/
theorem update_row_data_spec_witness :
    (update_row_data [["ID", "Name", "Qty"], ["a1", "Asha", "5"], ["a2", "Bob", "7"]]
        "a2" [("Qty", "9")]).1.getD 1 [] = ["a1", "Asha", "5"]
    ∧ ((update_row_data [["ID", "Name", "Qty"], ["a1", "Asha", "5"], ["a2", "Bob", "7"]]
        "a2" [("Qty", "9")]).1.getD 2 []).getD 2 "" = "9"
    ∧ ((update_row_data [["ID", "Name", "Qty"], ["a1", "Asha", "5"], ["a2", "Bob", "7"]]
        "a2" [("Qty", "9")]).1.getD 2 []).getD 1 "" = "Bob" := by
  have h := update_row_data_spec
    [["ID", "Name", "Qty"], ["a1", "Asha", "5"], ["a2", "Bob", "7"]]
    "a2" [("Qty", "9")] 2 0 (by rfl) (by decide) (by rfl)
  refine ⟨h.1 1 (by decide), ?_, ?_⟩
  · exact h.2.2 ("Qty", "9") (by decide) 2 (by rfl)
  · have h2 := h.2.1 1 (by decide)
    rw [h2]
    rfl

end FieldApp
